import Mathlib

/-!
Verification of the sliding-sync proxy core against its natural-language
specification.  The Go source is shallowly embedded: Go maps become
association lists, channels become numeric identities, stateful methods
become explicit state-passing functions, and fallible code returns `Option`.
-/

set_option linter.unusedVariables false

/-! ## Association-list maps (shallow embedding of Go maps) -/

/-- First-match lookup in an association list (Go map read). -/
def alLookup {α β : Type} [DecidableEq α] : List (α × β) → α → Option β
  | [], _ => none
  | (k, v) :: rest, k' => if k' = k then some v else alLookup rest k'

/-- Go map write: replace any existing binding for `k` with `v`. -/
def alInsert {α β : Type} [DecidableEq α] (l : List (α × β)) (k : α) (v : β) :
    List (α × β) :=
  (k, v) :: l.filter (fun p => ¬(p.1 = k))

/-- Go `delete(m, k)`. -/
def alErase {α β : Type} [DecidableEq α] (l : List (α × β)) (k : α) : List (α × β) :=
  l.filter (fun p => ¬(p.1 = k))

/-! ## Poller-ready gate (`EnsurePoller`, src/unnamed/part_000)

Channels are modelled by numeric identities drawn from a fresh counter.
The `closed` field records every `close(ch)` the gate performs, in order;
"no channel is closed twice" is `closed.Nodup`.  The `published` field
records every `V3EnsurePolling` payload sent on the control channel. -/

structure PollerID where
  UserID : String
  DeviceID : String
deriving DecidableEq, Repr

structure V3EnsurePolling where
  UserID : String
  DeviceID : String
  AccessTokenHash : String
deriving DecidableEq, Repr

/-- Struct `pendingInfo` from the source: `done` flag plus the (possibly nil) channel. -/
structure pendingInfo where
  done : Bool
  ch : Option Nat
deriving DecidableEq, Repr

/-- The observable state of an `EnsurePoller` run: the `pendingPolls` map plus
a fresh-channel counter and the histories of closes and publishes. -/
structure GateState where
  pendingPolls : List (PollerID × pendingInfo)
  nextCh : Nat
  closed : List Nat
  published : List V3EnsurePolling
deriving DecidableEq, Repr

/-- Constructor `NewEnsurePoller`: empty map, no closes, no publishes. -/
def NewEnsurePoller : GateState :=
  { pendingPolls := [], nextCh := 0, closed := [], published := [] }

/-- Reading a Go map at a missing key yields the zero value `{done:false, ch:nil}`. -/
def GateState.pending (s : GateState) (pid : PollerID) : pendingInfo :=
  (alLookup s.pendingPolls pid).getD { done := false, ch := none }

/-- Method `EnsurePoller.EnsurePolling` (state-transition part).  When the slot is
`done` or already carries a channel the caller returns / blocks without
touching the state; otherwise a fresh channel is stored and a
`V3EnsurePolling` payload is published. -/
def EnsurePolling (s : GateState) (pid : PollerID) (tokenHash : String) : GateState :=
  if (s.pending pid).done then s
  else
    match (s.pending pid).ch with
    | some _ => s
    | none =>
        let ch := s.nextCh
        { s with
          pendingPolls := alInsert s.pendingPolls pid { done := false, ch := some ch },
          nextCh := s.nextCh + 1,
          published := s.published ++
            [{ UserID := pid.UserID, DeviceID := pid.DeviceID,
               AccessTokenHash := tokenHash }] }

/-- Method `EnsurePoller.OnInitialSyncComplete`.  `close(ch)` is recorded by
appending the channel to `closed`; in Go closing a nil channel panics, and
the reachable-state invariant below shows `ch` is never nil there. -/
def OnInitialSyncComplete (s : GateState) (pid : PollerID) : GateState :=
  match alLookup s.pendingPolls pid with
  | none =>
      { s with pendingPolls := alInsert s.pendingPolls pid { done := true, ch := none } }
  | some pending =>
      if pending.done then s
      else
        { s with
          pendingPolls := alInsert s.pendingPolls pid { done := true, ch := none },
          closed := s.closed ++ pending.ch.toList }

/-- Method `EnsurePoller.OnExpiredToken`: close any pending channel, forget the slot. -/
def OnExpiredToken (s : GateState) (pid : PollerID) : GateState :=
  match alLookup s.pendingPolls pid with
  | none => s
  | some pending =>
      { s with
        pendingPolls := alErase s.pendingPolls pid,
        closed := s.closed ++ pending.ch.toList }

/-- One atomic gate call. -/
inductive GateOp where
  | ensurePolling (pid : PollerID) (tokenHash : String)
  | onInitialSyncComplete (pid : PollerID)
  | onExpiredToken (pid : PollerID)
deriving DecidableEq, Repr

def gateStep (s : GateState) : GateOp → GateState
  | .ensurePolling pid tokenHash => EnsurePolling s pid tokenHash
  | .onInitialSyncComplete pid => OnInitialSyncComplete s pid
  | .onExpiredToken pid => OnExpiredToken s pid

def gateRun (s : GateState) (ops : List GateOp) : GateState :=
  ops.foldl gateStep s

/-- Reachable-state invariant of the gate:
  * a `done` slot has a nil channel, a not-`done` slot a live one;
  * live channels are below the fresh counter, never already closed, and
    pairwise distinct across slots;
  * the close history is duplicate-free and below the fresh counter. -/
def GateWF (s : GateState) : Prop :=
  (∀ pid info, alLookup s.pendingPolls pid = some info →
      (info.done = true → info.ch = none) ∧
      (info.done = false → info.ch.isSome) ∧
      (∀ c, info.ch = some c → c < s.nextCh ∧ c ∉ s.closed)) ∧
  s.closed.Nodup ∧
  (∀ c ∈ s.closed, c < s.nextCh) ∧
  (∀ pid₁ pid₂ i₁ i₂ c, pid₁ ≠ pid₂ →
      alLookup s.pendingPolls pid₁ = some i₁ →
      alLookup s.pendingPolls pid₂ = some i₂ →
      i₁.ch = some c → i₂.ch ≠ some c)

/-- Number of `V3EnsurePolling` payloads published so far for this poller id. -/
def publishedFor (s : GateState) (pid : PollerID) : Nat :=
  (s.published.filter
    (fun p => p.UserID == pid.UserID && p.DeviceID == pid.DeviceID)).length

/-! ## Global room-metadata cache (`GlobalCache`, src/unnamed/part_002)

JSON access is abstracted: each field of `Content` stands for the result of
one fixed gjson query the source performs on `ed.Content` or the raw event
JSON.  The `internal` package is not under src/, so its three helpers
(`RoomMetadata` zero values aside: `Assert`, `RemoveHero`,
`IsMembershipChange`) are modelled from the spec, as marked below. -/

structure Hero where
  ID : String
  Name : String
deriving DecidableEq, Repr

/-- Struct `internal.RoomMetadata` as the cache uses it; fields follow their
uses in the source and the spec's data model (§3). -/
structure RoomMetadata where
  RoomID : String
  NameEvent : String
  CanonicalAlias : String
  Encrypted : Bool
  UpgradedRoomID : Option String
  PredecessorRoomID : Option String
  RoomType : Option String
  ChildSpaceRooms : List String
  JoinCount : Nat
  InviteCount : Nat
  Heroes : List Hero
  LastMessageTimestamp : Nat
  TypingEvent : Option String
deriving DecidableEq, Repr

/-- Fresh metadata `&RoomMetadata{RoomID: roomID, ChildSpaceRooms: make(...)}`:
every other field keeps its Go zero value. -/
def RoomMetadata.fresh (roomID : String) : RoomMetadata :=
  { RoomID := roomID, NameEvent := "", CanonicalAlias := "", Encrypted := false,
    UpgradedRoomID := none, PredecessorRoomID := none, RoomType := none,
    ChildSpaceRooms := [], JoinCount := 0, InviteCount := 0, Heroes := [],
    LastMessageTimestamp := 0, TypingEvent := none }

/-- Modelled from the spec: `internal.RoomMetadata.RemoveHero` is not under
src/; the spec (§3, §4.C) says leaving/banned users are removed from the
heroes on the update that changes their membership, so removal drops the
hero carrying the given user id. -/
def RemoveHero (heroes : List Hero) (userID : String) : List Hero :=
  heroes.filter (fun h => ¬(h.ID = userID))

/-- Go set insert `m[k] = struct{}{}` on `ChildSpaceRooms`. -/
def setInsert (l : List String) (x : String) : List String :=
  if x ∈ l then l else l ++ [x]

/-- Go `delete(m, k)` on `ChildSpaceRooms`. -/
def setRemove (l : List String) (x : String) : List String :=
  l.filter (fun y => ¬(y = x))

/-- Results of the fixed gjson queries `OnNewEvent` makes on the event
content: a `.Str` query yields `""` for a missing path; `viaIsArray` is
`content.Get("via").IsArray()`; `roomType` is `some` exactly when
`content.type` exists and is a JSON string. -/
structure Content where
  name : String
  aliasValue : String
  replacementRoom : String
  roomType : Option String
  predecessorRoomID : String
  viaIsArray : Bool
  membership : String
  displayname : String
deriving DecidableEq, Repr

/-- Struct `caches.EventData`; `prevMembership` abstracts the query
`eventJSON.Get("unsigned.prev_content.membership").Str` on the raw event. -/
structure EventData where
  RoomID : String
  EventType : String
  StateKey : Option String
  Content : Content
  Timestamp : Nat
  JoinCount : Nat
  InviteCount : Nat
  prevMembership : String
deriving DecidableEq, Repr

/-- Modelled from the spec: `internal.IsMembershipChange` is not under src/;
per the spec (§4.C) a member event is a *membership change* when it changes
the member's membership, i.e. when the new membership differs from
`unsigned.prev_content.membership`. -/
def IsMembershipChange (ed : EventData) : Bool :=
  ed.Content.membership != ed.prevMembership

/-- Mutable state of `GlobalCache`, plus the history of
`InvitesTable.RemoveInvite(user, room)` calls made to the storage. -/
structure GlobalCache where
  roomIDToMetadata : List (String × RoomMetadata)
  removedInvites : List (String × String)
deriving DecidableEq, Repr

def NewGlobalCache : GlobalCache :=
  { roomIDToMetadata := [], removedInvites := [] }

/-- Loop `for i := range metadata.Heroes { if ...ID == *ed.StateKey { ...Name = displayname; break } }`. -/
def updateHeroName : List Hero → String → String → List Hero
  | [], _, _ => []
  | h :: t, sk, newName =>
      if h.ID = sk then { h with Name := newName } :: t
      else h :: updateHeroName t sk newName

/-- Body of the `m.room.member` case of `OnNewEvent` for a non-nil state key
`sk`: membership-change handling (counts, hero removal, invite retirement)
followed by the hero add/update branch. -/
def memberStep (metadata : RoomMetadata) (ed : EventData) (sk : String) :
    RoomMetadata × List (String × String) :=
  let membership := ed.Content.membership
  let m₁ :=
    if IsMembershipChange ed then
      let m := { metadata with JoinCount := ed.JoinCount,
                               InviteCount := ed.InviteCount }
      if membership = "leave" ∨ membership = "ban" then
        { m with Heroes := RemoveHero m.Heroes sk }
      else m
    else metadata
  let removed :=
    if IsMembershipChange ed ∧ membership = "join" ∧
        ed.prevMembership = "invite" then [(sk, ed.RoomID)] else []
  let m₂ :=
    if m₁.Heroes.length < 6 ∧ (membership = "join" ∨ membership = "invite")
    then
      if m₁.Heroes.any (fun h => h.ID == sk) then
        { m₁ with Heroes := updateHeroName m₁.Heroes sk ed.Content.displayname }
      else
        { m₁ with Heroes :=
            m₁.Heroes ++ [{ ID := sk, Name := ed.Content.displayname }] }
    else m₁
  (m₂, removed)

/-- Per-room update `OnNewEvent` performs inside the lock, before the final
`LastMessageTimestamp` write: the `switch ed.EventType` of the source, also
returning the `InvitesTable.RemoveInvite` calls made. -/
def onNewEventStep (metadata : RoomMetadata) (ed : EventData) :
    RoomMetadata × List (String × String) :=
  if ed.EventType = "m.room.name" then
    (if ed.StateKey = some "" then { metadata with NameEvent := ed.Content.name }
     else metadata, [])
  else if ed.EventType = "m.room.encryption" then
    (if ed.StateKey = some "" then { metadata with Encrypted := true }
     else metadata, [])
  else if ed.EventType = "m.room.tombstone" then
    (if ed.StateKey = some "" then
       (if ed.Content.replacementRoom = "" then
          { metadata with UpgradedRoomID := none }
        else { metadata with UpgradedRoomID := some ed.Content.replacementRoom })
     else metadata, [])
  else if ed.EventType = "m.room.canonical_alias" then
    (if ed.StateKey = some "" then { metadata with CanonicalAlias := ed.Content.aliasValue }
     else metadata, [])
  else if ed.EventType = "m.room.create" then
    (if ed.StateKey = some "" then
       let m₁ := match ed.Content.roomType with
         | some t => { metadata with RoomType := some t }
         | none => metadata
       if ed.Content.predecessorRoomID = "" then m₁
       else { m₁ with PredecessorRoomID := some ed.Content.predecessorRoomID }
     else metadata, [])
  else if ed.EventType = "m.space.child" then
    (match ed.StateKey with
     | some sk =>
         if ed.Content.viaIsArray then
           { metadata with ChildSpaceRooms := setInsert metadata.ChildSpaceRooms sk }
         else
           { metadata with ChildSpaceRooms := setRemove metadata.ChildSpaceRooms sk }
     | none => metadata, [])
  else if ed.EventType = "m.room.member" then
    (match ed.StateKey with
     | some sk => memberStep metadata ed sk
     | none => (metadata, []))
  else (metadata, [])

/-- Method `GlobalCache.OnNewEvent`: fetch (or create) the room's metadata,
apply the event-type switch, always update `LastMessageTimestamp`, store. -/
def OnNewEvent (c : GlobalCache) (ed : EventData) : GlobalCache :=
  let metadata :=
    (alLookup c.roomIDToMetadata ed.RoomID).getD (RoomMetadata.fresh ed.RoomID)
  let step := onNewEventStep metadata ed
  let metadata := { step.1 with LastMessageTimestamp := ed.Timestamp }
  { roomIDToMetadata := alInsert c.roomIDToMetadata ed.RoomID metadata,
    removedInvites := c.removedInvites ++ step.2 }

/-- Metadata the cache currently holds for a room: the Go map read, a
missing entry defaulting to the fresh metadata the source would create. -/
def metaOf (c : GlobalCache) (roomID : String) : RoomMetadata :=
  (alLookup c.roomIDToMetadata roomID).getD (RoomMetadata.fresh roomID)

/-- Folding a sequence of events through `OnNewEvent`. -/
def processEvents (c : GlobalCache) (events : List EventData) : GlobalCache :=
  events.foldl OnNewEvent c

/-- Last event of the sequence carrying the given user as its state key. -/
def lastMemberEventFor (events : List EventData) (u : String) : Option EventData :=
  (events.filter (fun e => e.StateKey = some u)).getLast?

/-- Ephemeral event payload: the gjson `type` query result plus the raw JSON. -/
structure EphemeralEvent where
  evType : String
  raw : String
deriving DecidableEq, Repr

/-- Method `GlobalCache.OnEphemeralEvent`: create metadata if absent, and on
`m.typing` overwrite the `TypingEvent` field. -/
def OnEphemeralEvent (c : GlobalCache) (roomID : String) (ephEvent : EphemeralEvent) :
    GlobalCache :=
  let metadata :=
    (alLookup c.roomIDToMetadata roomID).getD (RoomMetadata.fresh roomID)
  let metadata :=
    if ephEvent.evType = "m.typing" then { metadata with TypingEvent := some ephEvent.raw }
    else metadata
  { c with roomIDToMetadata := alInsert c.roomIDToMetadata roomID metadata }

/-- Insertion step of the string sort modelling Go's `sort.Strings` over the
map keys (`Startup` iterates keys in ascending order). -/
def insertSorted (x : String × RoomMetadata) :
    List (String × RoomMetadata) → List (String × RoomMetadata)
  | [] => [x]
  | y :: ys => if x.1 ≤ y.1 then x :: y :: ys else y :: insertSorted x ys

/-- Entries sorted by room id, modelling `sort.Strings(roomIDs)`. -/
def sortEntries : List (String × RoomMetadata) → List (String × RoomMetadata)
  | [] => []
  | x :: xs => insertSorted x (sortEntries xs)

/-- Modelled from the spec: `internal.Assert` is not under src/; the spec
(§4.C) says the `Startup` precondition is *asserted*, so a failing assertion
aborts `Startup` with no resulting cache. -/
def Assert (check : Bool) : Option Unit :=
  if check then some () else none

/-- Loop body of `Startup`: assert the entry's precondition (non-empty room
id, `LastMessageTimestamp > 1`), then store the entry. -/
def startupStep (cache : GlobalCache) (entry : String × RoomMetadata) :
    Option GlobalCache := do
  let _ ← Assert (entry.2.RoomID != "")
  let _ ← Assert (decide (entry.2.LastMessageTimestamp > 1))
  some { cache with
          roomIDToMetadata := alInsert cache.roomIDToMetadata entry.1 entry.2 }

/-- Method `GlobalCache.Startup`: iterate the given room metadata in
ascending room-id order, assert each entry's precondition, and populate the
cache. -/
def Startup (c : GlobalCache) (roomIDToMetadata : List (String × RoomMetadata)) :
    Option GlobalCache :=
  (sortEntries roomIDToMetadata).foldlM startupStep c


/-- Concrete event content: a space-child payload whose `via` is an array. -/
def contentVia : Content :=
  { name := "", aliasValue := "", replacementRoom := "", roomType := none,
    predecessorRoomID := "", viaIsArray := true, membership := "",
    displayname := "" }

/-- Concrete `m.space.child` event used to instantiate the theorems. -/
def spaceChildEvent : EventData :=
  { RoomID := "!parent", EventType := "m.space.child", StateKey := some "!child",
    Content := contentVia, Timestamp := 7, JoinCount := 0, InviteCount := 0,
    prevMembership := "" }

/-- Concrete member-event content with membership `join`. -/
def contentJoin : Content :=
  { contentVia with viaIsArray := false, membership := "join", displayname := "U" }

/-- Concrete membership-change join event for user `@u` in room `!r`. -/
def eventJoinU : EventData :=
  { RoomID := "!r", EventType := "m.room.member", StateKey := some "@u",
    Content := contentJoin, Timestamp := 5, JoinCount := 1, InviteCount := 0,
    prevMembership := "" }

/-- Concrete duplicate leave event for `@u`: membership `leave` while
`unsigned.prev_content.membership` is already `leave`, so it is not a
membership change. -/
def eventDupLeaveU : EventData :=
  { eventJoinU with
    Content := { contentJoin with membership := "leave" },
    prevMembership := "leave" }

/-- Concrete metadata with `LastMessageTimestamp = 1`. -/
def mdTs1 : RoomMetadata :=
  { RoomMetadata.fresh "!r" with LastMessageTimestamp := 1 }

/-- Concrete metadata with `LastMessageTimestamp = 2`. -/
def mdTs2 : RoomMetadata :=
  { RoomMetadata.fresh "!a" with LastMessageTimestamp := 2 }

/-! ## Response list ops and their JSON wire form (src/unnamed/part_002,
package sync3)

JSON values are modelled structurally; `encoding/json` marshalling of the
two op structs and the op-discrimination loop of `Response.UnmarshalJSON`
are embedded below. -/

inductive JSON where
  | null
  | bool (b : Bool)
  | num (n : Int)
  | str (s : String)
  | arr (elems : List JSON)
  | obj (fields : List (String × JSON))

/-- Fields of an op object; a non-object has none. -/
def objFields : JSON → List (String × JSON)
  | JSON.obj fields => fields
  | _ => []

structure ResponseOpRange where
  Operation : String
  Range : Int × Int
  RoomIDs : List String
deriving DecidableEq, Repr

structure ResponseOpSingle where
  Operation : String
  Index : Option Int
  RoomID : String
deriving DecidableEq, Repr

/-- The `ResponseOp` interface: one of the two op structs. -/
inductive ResponseOp where
  | range (r : ResponseOpRange)
  | single (s : ResponseOpSingle)
deriving DecidableEq, Repr

/-- Go marshalling of `ResponseOpSingle`: `op` always present; `index` is a
`*int` with omitempty, present iff the pointer is non-nil — a pointer to 0
is serialized; `room_id` (omitempty) present iff non-empty. -/
def marshalOpSingle (r : ResponseOpSingle) : JSON :=
  JSON.obj ([("op", JSON.str r.Operation)]
    ++ (match r.Index with
        | none => []
        | some i => [("index", JSON.num i)])
    ++ (if r.RoomID = "" then [] else [("room_id", JSON.str r.RoomID)]))

/-- Go marshalling of `ResponseOpRange`: `op` always present; `range` is a
length-2 array, never empty, so its omitempty never fires; `room_ids`
omitted iff empty. -/
def marshalOpRange (r : ResponseOpRange) : JSON :=
  JSON.obj ([("op", JSON.str r.Operation),
             ("range", JSON.arr [JSON.num r.Range.1, JSON.num r.Range.2])]
    ++ (if r.RoomIDs.isEmpty then []
        else [("room_ids", JSON.arr (r.RoomIDs.map JSON.str))]))

def marshalOp : ResponseOp → JSON
  | ResponseOp.range r => marshalOpRange r
  | ResponseOp.single s => marshalOpSingle s

/-- Unmarshal a string field: a missing key or JSON null leaves the zero
value `""`; a string decodes; any other value is a type error. -/
def decStringField (fields : List (String × JSON)) (key : String) : Option String :=
  match alLookup fields key with
  | none => some ""
  | some JSON.null => some ""
  | some (JSON.str s) => some s
  | some _ => none

/-- Unmarshal a `*int` field: missing or null leaves the nil pointer. -/
def decIntPtrField (fields : List (String × JSON)) (key : String) :
    Option (Option Int) :=
  match alLookup fields key with
  | none => some none
  | some JSON.null => some none
  | some (JSON.num n) => some (some n)
  | some _ => none

/-- Decode a prefix of JSON numbers. -/
def decNums : List JSON → Option (List Int)
  | [] => some []
  | JSON.num n :: rest => (decNums rest).map (fun ns => n :: ns)
  | _ => none

/-- Unmarshal a `[2]int64` field: missing or null leaves `[0,0]`; an array
fills positions (missing positions stay zero, extra elements are
discarded); any other value errors. -/
def decRangeField (fields : List (String × JSON)) (key : String) :
    Option (Int × Int) :=
  match alLookup fields key with
  | none => some (0, 0)
  | some JSON.null => some (0, 0)
  | some (JSON.arr elems) =>
      match decNums (elems.take 2) with
      | none => none
      | some [] => some (0, 0)
      | some [a] => some (a, 0)
      | some (a :: b :: _) => some (a, b)
  | some _ => none

/-- Decode a list of JSON strings (null elements leave `""`). -/
def decStrs : List JSON → Option (List String)
  | [] => some []
  | JSON.str s :: rest => (decStrs rest).map (fun ss => s :: ss)
  | JSON.null :: rest => (decStrs rest).map (fun ss => "" :: ss)
  | _ => none

/-- Unmarshal a `[]string` field: missing or null leaves the nil slice. -/
def decStrListField (fields : List (String × JSON)) (key : String) :
    Option (List String) :=
  match alLookup fields key with
  | none => some []
  | some JSON.null => some []
  | some (JSON.arr elems) => decStrs elems
  | some _ => none

def parseSingleOp (fields : List (String × JSON)) : Option ResponseOpSingle :=
  match decStringField fields "op" with
  | none => none
  | some op =>
      match decIntPtrField fields "index" with
      | none => none
      | some idx =>
          match decStringField fields "room_id" with
          | none => none
          | some roomID => some { Operation := op, Index := idx, RoomID := roomID }

def parseRangeOp (fields : List (String × JSON)) : Option ResponseOpRange :=
  match decStringField fields "op" with
  | none => none
  | some op =>
      match decRangeField fields "range" with
      | none => none
      | some range =>
          match decStrListField fields "room_ids" with
          | none => none
          | some roomIDs =>
              some { Operation := op, Range := range, RoomIDs := roomIDs }

/-- Loop body of `Response.UnmarshalJSON` for one op: an op object carrying
a `range` field (gjson `Exists`, i.e. the key is present even when null)
unmarshals as `ResponseOpRange`, any other object as `ResponseOpSingle`;
non-objects fail as both struct unmarshals would. -/
def unmarshalOp (j : JSON) : Option ResponseOp :=
  match j with
  | JSON.obj fields =>
      if (alLookup fields "range").isSome then
        (parseRangeOp fields).map ResponseOp.range
      else
        (parseSingleOp fields).map ResponseOp.single
  | _ => none

/-- The `for _, op := range l.Ops` loop of `Response.UnmarshalJSON`:
unmarshal each op, failing when any op fails. -/
def unmarshalOps : List JSON → Option (List ResponseOp)
  | [] => some []
  | op :: rest =>
      match unmarshalOp op with
      | none => none
      | some o =>
          match unmarshalOps rest with
          | none => none
          | some os => some (o :: os)

/-! ## Session store (`Sessions.NewSession`, src/unnamed/part_001) -/

/-- Struct `sync3.Session` (fields as used by `NewSession` and callers). -/
structure Session where
  ID : Int
  DeviceID : String
  V2Since : String
  UserID : String
deriving DecidableEq, Repr

/-- Row of `syncv3_sessions`. -/
structure SessionRow where
  session_id : Int
  device_id : String
  last_confirmed_token : String
  last_unconfirmed_token : String
deriving DecidableEq, Repr

/-- Row of `syncv3_sessions_v2devices`, without its `device_id` key. -/
structure DeviceRow where
  user_id : String
  since : String
deriving DecidableEq, Repr

/-- The two tables `NewSession` touches, plus the sequence feeding
`session_id`. -/
structure SessionsDB where
  nextSessionID : Int
  sessions : List SessionRow
  v2devices : List (String × DeviceRow)
deriving DecidableEq, Repr

/-- Method `Sessions.NewSession` (success path of the transaction): insert a
session row with a fresh id, then `INSERT ... ON CONFLICT (device_id) DO
NOTHING` into `syncv3_sessions_v2devices`.  If a row was inserted (fresh
device, `RowsAffected = 1`) the session is returned without querying
`since`; otherwise the existing row's `since` and `user_id` are returned
and the device row is left untouched. -/
def NewSession (db : SessionsDB) (deviceID : String) : Session × SessionsDB :=
  let id := db.nextSessionID
  let db₁ := { db with
    nextSessionID := db.nextSessionID + 1,
    sessions := db.sessions ++
      [{ session_id := id, device_id := deviceID,
         last_confirmed_token := "", last_unconfirmed_token := "" }] }
  match alLookup db₁.v2devices deviceID with
  | none =>
      ({ ID := id, DeviceID := deviceID, V2Since := "", UserID := "" },
       { db₁ with
          v2devices := alInsert db₁.v2devices deviceID { user_id := "", since := "" } })
  | some row =>
      ({ ID := id, DeviceID := deviceID, V2Since := row.since,
         UserID := row.user_id }, db₁)

/-! ## Transactions (`sqlutil.WithTransaction`, src/sqlutil/sql.go) -/

/-- Behaviour of the callback passed to `WithTransaction`. -/
inductive FnOutcome where
  | ok
  | err (e : String)
  | panics (v : String)
deriving DecidableEq, Repr

inductive TxnAction where
  | committed
  | rolledBack
deriving DecidableEq, Repr

/-- Observable outcome of `WithTransaction`: what happened to the
transaction, the returned error, and any panic the call itself propagates. -/
structure WTResult where
  action : Option TxnAction
  err : Option String
  panicked : Option String
deriving DecidableEq, Repr

/-- Function `sqlutil.WithTransaction`, parameterised by the callback's
behaviour and the begin/commit/rollback results.  The deferred `recover`
converts a callback panic into the returned error, so `panicked` — a panic
propagated out of `WithTransaction` itself — is always none.  A rollback
error is never promoted (the error is already set); a commit error is. -/
def WithTransaction (beginErr : Option String) (fnRes : FnOutcome)
    (commitErr rollbackErr : Option String) : WTResult :=
  match beginErr with
  | some e =>
      { action := none, err := some ("WithTransaction.Begin: " ++ e),
        panicked := none }
  | none =>
      let err : Option String :=
        match fnRes with
        | FnOutcome.ok => none
        | FnOutcome.err e => some e
        | FnOutcome.panics _ => none
      let panicErr : Option String :=
        match fnRes with
        | FnOutcome.panics v => some v
        | _ => none
      let err :=
        match err, panicErr with
        | none, some v => some ("panic: " ++ v)
        | e, _ => e
      match err with
      | some e =>
          { action := some TxnAction.rolledBack, err := some e, panicked := none }
      | none =>
          { action := some TxnAction.committed,
            err := commitErr.map
              (fun t => "WithTransaction failed to commit/rollback: " ++ t),
            panicked := none }

/-! ## Account-data extension (`ProcessAccountData`, src/unnamed/part_002) -/

/-- Row of account data as `state.AccountData` carries it. -/
structure AccountData where
  RoomID : String
  Data : String
deriving DecidableEq, Repr

/-- Modelled from the spec: `state.Storage` is not under src/; per the spec
(§4.G) account data is stored per user globally and per room, and
`AccountDatas(userID, roomIDs...)` returns the global rows when called with
no room ids and the rows of the given rooms otherwise (fetches assumed
error-free, the store already scoped to the one user). -/
structure AccountStore where
  global : List AccountData
  room : List AccountData
deriving DecidableEq, Repr

def AccountDatas (store : AccountStore) (roomIDs : List String) :
    List AccountData :=
  if roomIDs.isEmpty then store.global
  else store.room.filter (fun ad => ad.RoomID ∈ roomIDs)

def accountEventsAsJSON (events : List AccountData) : List String :=
  events.map (fun e => e.Data)

/-- Go `res.Rooms[ad.RoomID] = append(res.Rooms[ad.RoomID], ad.Data)`. -/
def appendRoomData (m : List (String × List String)) (k v : String) :
    List (String × List String) :=
  match m with
  | [] => [(k, [v])]
  | (k', vs) :: rest =>
      if k' = k then (k', vs ++ [v]) :: rest
      else (k', vs) :: appendRoomData rest k v

/-- The grouping loop `for _, ad := range roomsAccountData`. -/
def groupByRoom (rows : List AccountData) : List (String × List String) :=
  rows.foldl (fun m ad => appendRoomData m ad.RoomID ad.Data) []

/-- Merge previously grouped data for one room with newly appended data;
spells out the shape `groupByRoom` lookups take. -/
def mergeGroup (prev : Option (List String)) (ds : List String) :
    Option (List String) :=
  match prev, ds with
  | none, [] => none
  | none, ds => some ds
  | some vs, ds => some (vs ++ ds)

/-- Struct `AccountDataResponse`: `omitempty` nil-ness is tracked with
`Option`. -/
structure AccountDataResponse where
  Global : Option (List String)
  Rooms : Option (List (String × List String))
deriving DecidableEq, Repr

/-- Function `extensions.ProcessAccountData`: room account data is fetched
for the key set of `roomIDToTimeline` whenever it is non-empty; global
account data only when `isInitial`. -/
def ProcessAccountData (store : AccountStore)
    (roomIDToTimeline : List (String × List String)) (userID : String)
    (isInitial : Bool) : AccountDataResponse :=
  let roomIDs := roomIDToTimeline.map Prod.fst
  let res : AccountDataResponse := { Global := none, Rooms := none }
  let res :=
    if roomIDs.length > 0 then
      { res with Rooms := some (groupByRoom (AccountDatas store roomIDs)) }
    else res
  if isInitial then
    { res with Global := some (accountEventsAsJSON (AccountDatas store [])) }
  else res


/-- Account data the store holds for one room, in store order. -/
def roomDatas (rows : List AccountData) (r : String) : List String :=
  (rows.filter (fun ad => ad.RoomID = r)).map (fun ad => ad.Data)

/-! ## Theorems -/

theorem alLookup_insert_self {α β : Type} [DecidableEq α]
    (l : List (α × β)) (k : α) (v : β) : alLookup (alInsert l k v) k = some v := by
  simp [alInsert, alLookup]

theorem alLookup_filter {α β : Type} [DecidableEq α]
    (l : List (α × β)) (p : α × β → Bool) (k : α)
    (hp : ∀ v, p (k, v) = true) :
    alLookup (l.filter p) k = alLookup l k := by
  induction l with
  | nil => rfl
  | cons hd tl ih =>
      by_cases hk : k = hd.1
      · subst hk
        have : p hd = true := by
          have := hp hd.2; simpa using this
        simp [List.filter, this, alLookup, ih]
      · cases hpd : p hd <;> simp [List.filter, hpd, alLookup, hk, ih]

theorem alLookup_insert_ne {α β : Type} [DecidableEq α]
    (l : List (α × β)) (k k' : α) (v : β) (h : k' ≠ k) :
    alLookup (alInsert l k v) k' = alLookup l k' := by
  unfold alInsert
  rw [alLookup]
  simp only [if_neg h]
  apply alLookup_filter
  intro w
  simp
  intro hc
  exact absurd hc h

theorem alLookup_erase {α β : Type} [DecidableEq α]
    (l : List (α × β)) (k k' : α) :
    alLookup (alErase l k) k' = if k' = k then none else alLookup l k' := by
  by_cases h : k' = k
  · subst h
    simp only [if_pos rfl]
    induction l with
    | nil => rfl
    | cons hd tl ih =>
        by_cases hk : hd.1 = k'
        · simp [alErase, List.filter, hk, alLookup] at ih ⊢
          exact ih
        · simp [alErase, List.filter, hk, alLookup, Ne.symm hk] at ih ⊢
          exact ih
  · simp only [if_neg h]
    apply alLookup_filter
    intro w
    simp
    intro hc
    exact absurd hc h

theorem fresh_not_closed (s : GateState) (h3 : ∀ c ∈ s.closed, c < s.nextCh) :
    s.nextCh ∉ s.closed := by
  intro hmem
  exact absurd (h3 _ hmem) (lt_irrefl _)

/-- Calling `EnsurePolling` when the slot is already done: early return. -/
theorem EnsurePolling_done (s : GateState) (pid : PollerID) (th : String)
    (h : (s.pending pid).done = true) : EnsurePolling s pid th = s := by
  unfold EnsurePolling
  rw [h]
  simp

/-- Calling `EnsurePolling` when a channel is pending: the caller blocks, state unchanged. -/
theorem EnsurePolling_blocked (s : GateState) (pid : PollerID) (th : String) (c : Nat)
    (hd : (s.pending pid).done = false) (hc : (s.pending pid).ch = some c) :
    EnsurePolling s pid th = s := by
  unfold EnsurePolling
  rw [hd, hc]
  simp

/-- Calling `EnsurePolling` on a fresh slot: store a new channel and publish. -/
theorem EnsurePolling_fresh (s : GateState) (pid : PollerID) (th : String)
    (hd : (s.pending pid).done = false) (hc : (s.pending pid).ch = none) :
    EnsurePolling s pid th =
      { s with
        pendingPolls := alInsert s.pendingPolls pid { done := false, ch := some s.nextCh },
        nextCh := s.nextCh + 1,
        published := s.published ++
          [{ UserID := pid.UserID, DeviceID := pid.DeviceID, AccessTokenHash := th }] } := by
  unfold EnsurePolling
  rw [hd, hc]
  simp

theorem gateWF_EnsurePolling (s : GateState) (pid : PollerID) (th : String)
    (h : GateWF s) : GateWF (EnsurePolling s pid th) := by
  obtain ⟨h1, h2, h3, h4⟩ := h
  by_cases hdone : (s.pending pid).done = true
  · rw [EnsurePolling_done s pid th hdone]
    exact ⟨h1, h2, h3, h4⟩
  · replace hdone : (s.pending pid).done = false := by
      cases hx : (s.pending pid).done
      · rfl
      · exact absurd hx hdone
    cases hch : (s.pending pid).ch with
    | some c =>
        rw [EnsurePolling_blocked s pid th c hdone hch]
        exact ⟨h1, h2, h3, h4⟩
    | none =>
        rw [EnsurePolling_fresh s pid th hdone hch]
        refine ⟨?_, h2, ?_, ?_⟩
        · intro pid' info hl
          by_cases hp : pid' = pid
          · subst hp
            rw [alLookup_insert_self] at hl
            cases hl
            refine ⟨by simp, by simp, ?_⟩
            intro c hc
            simp only [Option.some.injEq] at hc
            subst hc
            exact ⟨Nat.lt_succ_self _, fresh_not_closed s h3⟩
          · rw [alLookup_insert_ne _ _ _ _ hp] at hl
            obtain ⟨ha, hb, hc⟩ := h1 pid' info hl
            refine ⟨ha, hb, ?_⟩
            intro c hcc
            obtain ⟨hlt, hncl⟩ := hc c hcc
            exact ⟨Nat.lt_succ_of_lt hlt, hncl⟩
        · intro c hc
          exact Nat.lt_succ_of_lt (h3 c hc)
        · intro pid₁ pid₂ i₁ i₂ c hne hl₁ hl₂ hc₁
          by_cases hp₁ : pid₁ = pid
          · subst hp₁
            rw [alLookup_insert_self] at hl₁
            cases hl₁
            simp only [Option.some.injEq] at hc₁
            subst hc₁
            have hp₂ : pid₂ ≠ pid₁ := fun hx => hne hx.symm
            rw [alLookup_insert_ne _ _ _ _ hp₂] at hl₂
            intro hc₂
            obtain ⟨_, _, hcs⟩ := h1 pid₂ i₂ hl₂
            obtain ⟨hlt, _⟩ := hcs _ hc₂
            exact absurd hlt (lt_irrefl _)
          · rw [alLookup_insert_ne _ _ _ _ hp₁] at hl₁
            by_cases hp₂ : pid₂ = pid
            · subst hp₂
              rw [alLookup_insert_self] at hl₂
              cases hl₂
              simp only [ne_eq, Option.some.injEq]
              intro hc₂
              subst hc₂
              obtain ⟨_, _, hcs⟩ := h1 pid₁ i₁ hl₁
              obtain ⟨hlt, _⟩ := hcs _ hc₁
              exact absurd hlt (lt_irrefl _)
            · rw [alLookup_insert_ne _ _ _ _ hp₂] at hl₂
              exact h4 pid₁ pid₂ i₁ i₂ c hne hl₁ hl₂ hc₁

/-- Calling `OnInitialSyncComplete` for an untracked poller: record a spontaneous done slot. -/
theorem OnInitialSyncComplete_absent (s : GateState) (pid : PollerID)
    (h : alLookup s.pendingPolls pid = none) :
    OnInitialSyncComplete s pid =
      { s with pendingPolls := alInsert s.pendingPolls pid { done := true, ch := none } } := by
  unfold OnInitialSyncComplete
  rw [h]

/-- Calling `OnInitialSyncComplete` twice: no-op. -/
theorem OnInitialSyncComplete_done (s : GateState) (pid : PollerID) (p : pendingInfo)
    (h : alLookup s.pendingPolls pid = some p) (hd : p.done = true) :
    OnInitialSyncComplete s pid = s := by
  unfold OnInitialSyncComplete
  rw [h]
  simp [hd]

/-- Calling `OnInitialSyncComplete` on a waiting slot: close the channel, mark done. -/
theorem OnInitialSyncComplete_pending (s : GateState) (pid : PollerID) (p : pendingInfo)
    (h : alLookup s.pendingPolls pid = some p) (hd : p.done = false) :
    OnInitialSyncComplete s pid =
      { s with
        pendingPolls := alInsert s.pendingPolls pid { done := true, ch := none },
        closed := s.closed ++ p.ch.toList } := by
  unfold OnInitialSyncComplete
  rw [h]
  simp [hd]

theorem OnExpiredToken_absent (s : GateState) (pid : PollerID)
    (h : alLookup s.pendingPolls pid = none) : OnExpiredToken s pid = s := by
  unfold OnExpiredToken
  rw [h]

theorem OnExpiredToken_present (s : GateState) (pid : PollerID) (p : pendingInfo)
    (h : alLookup s.pendingPolls pid = some p) :
    OnExpiredToken s pid =
      { s with
        pendingPolls := alErase s.pendingPolls pid,
        closed := s.closed ++ p.ch.toList } := by
  unfold OnExpiredToken
  rw [h]

theorem gateWF_OnInitialSyncComplete (s : GateState) (pid : PollerID)
    (h : GateWF s) : GateWF (OnInitialSyncComplete s pid) := by
  obtain ⟨h1, h2, h3, h4⟩ := h
  cases hl : alLookup s.pendingPolls pid with
  | none =>
      rw [OnInitialSyncComplete_absent s pid hl]
      refine ⟨?_, h2, h3, ?_⟩
      · intro pid' info hl'
        by_cases hp : pid' = pid
        · subst hp
          rw [alLookup_insert_self] at hl'
          cases hl'
          exact ⟨fun _ => rfl, by simp, by simp⟩
        · rw [alLookup_insert_ne _ _ _ _ hp] at hl'
          exact h1 pid' info hl'
      · intro pid₁ pid₂ i₁ i₂ c hne hl₁ hl₂ hc₁
        by_cases hp₁ : pid₁ = pid
        · subst hp₁
          rw [alLookup_insert_self] at hl₁
          cases hl₁
          simp at hc₁
        · rw [alLookup_insert_ne _ _ _ _ hp₁] at hl₁
          by_cases hp₂ : pid₂ = pid
          · subst hp₂
            rw [alLookup_insert_self] at hl₂
            cases hl₂
            simp
          · rw [alLookup_insert_ne _ _ _ _ hp₂] at hl₂
            exact h4 pid₁ pid₂ i₁ i₂ c hne hl₁ hl₂ hc₁
  | some p =>
      cases hd : p.done with
      | true =>
          rw [OnInitialSyncComplete_done s pid p hl hd]
          exact ⟨h1, h2, h3, h4⟩
      | false =>
          obtain ⟨_, hb, hcs⟩ := h1 pid p hl
          obtain ⟨c₀, hc₀⟩ := Option.isSome_iff_exists.mp (hb hd)
          obtain ⟨hc₀lt, hc₀ncl⟩ := hcs c₀ hc₀
          rw [OnInitialSyncComplete_pending s pid p hl hd]
          refine ⟨?_, ?_, ?_, ?_⟩
          · intro pid' info hl'
            by_cases hp : pid' = pid
            · subst hp
              rw [alLookup_insert_self] at hl'
              cases hl'
              exact ⟨fun _ => rfl, by simp, by simp⟩
            · rw [alLookup_insert_ne _ _ _ _ hp] at hl'
              obtain ⟨ha', hb', hc'⟩ := h1 pid' info hl'
              refine ⟨ha', hb', ?_⟩
              intro c hc
              obtain ⟨hlt, hncl⟩ := hc' c hc
              refine ⟨hlt, ?_⟩
              have hcc₀ : c ≠ c₀ := by
                have := h4 pid' pid info p c hp hl' hl hc
                intro hx
                subst hx
                exact this hc₀
              simp [hc₀, List.mem_append]
              exact ⟨hncl, hcc₀⟩
          · simp only [hc₀, Option.toList_some]
            rw [List.nodup_append]
            refine ⟨h2, List.nodup_singleton c₀, ?_⟩
            intro a ha hb'
            simp at hb'
            subst hb'
            exact hc₀ncl ha
          · intro c hc
            simp [hc₀, List.mem_append] at hc
            cases hc with
            | inl hc => exact h3 c hc
            | inr hc => subst hc; exact hc₀lt
          · intro pid₁ pid₂ i₁ i₂ c hne hl₁ hl₂ hc₁
            by_cases hp₁ : pid₁ = pid
            · subst hp₁
              rw [alLookup_insert_self] at hl₁
              cases hl₁
              simp at hc₁
            · rw [alLookup_insert_ne _ _ _ _ hp₁] at hl₁
              by_cases hp₂ : pid₂ = pid
              · subst hp₂
                rw [alLookup_insert_self] at hl₂
                cases hl₂
                simp
              · rw [alLookup_insert_ne _ _ _ _ hp₂] at hl₂
                exact h4 pid₁ pid₂ i₁ i₂ c hne hl₁ hl₂ hc₁

theorem gateWF_OnExpiredToken (s : GateState) (pid : PollerID)
    (h : GateWF s) : GateWF (OnExpiredToken s pid) := by
  obtain ⟨h1, h2, h3, h4⟩ := h
  cases hl : alLookup s.pendingPolls pid with
  | none =>
      rw [OnExpiredToken_absent s pid hl]
      exact ⟨h1, h2, h3, h4⟩
  | some p =>
      rw [OnExpiredToken_present s pid p hl]
      refine ⟨?_, ?_, ?_, ?_⟩
      · intro pid' info hl'
        rw [alLookup_erase] at hl'
        by_cases hp : pid' = pid
        · simp [hp] at hl'
        · rw [if_neg hp] at hl'
          obtain ⟨ha', hb', hc'⟩ := h1 pid' info hl'
          refine ⟨ha', hb', ?_⟩
          intro c hc
          obtain ⟨hlt, hncl⟩ := hc' c hc
          refine ⟨hlt, ?_⟩
          cases hch : p.ch with
          | none => simpa [hch] using hncl
          | some c₀ =>
              have hcc₀ : c ≠ c₀ := by
                have := h4 pid' pid info p c hp hl' hl hc
                intro hx
                subst hx
                exact this hch
              simp [hch, List.mem_append]
              exact ⟨hncl, hcc₀⟩
      · cases hch : p.ch with
        | none => simpa using h2
        | some c₀ =>
            obtain ⟨_, _, hcs⟩ := h1 pid p hl
            obtain ⟨_, hc₀ncl⟩ := hcs c₀ hch
            simp only [Option.toList_some]
            rw [List.nodup_append]
            refine ⟨h2, List.nodup_singleton c₀, ?_⟩
            intro a ha hb'
            simp at hb'
            subst hb'
            exact hc₀ncl ha
      · intro c hc
        cases hch : p.ch with
        | none =>
            simp [hch] at hc
            exact h3 c hc
        | some c₀ =>
            simp [hch, List.mem_append] at hc
            cases hc with
            | inl hc => exact h3 c hc
            | inr hc =>
                subst hc
                obtain ⟨_, _, hcs⟩ := h1 pid p hl
                exact (hcs _ hch).1
      · intro pid₁ pid₂ i₁ i₂ c hne hl₁ hl₂ hc₁
        rw [alLookup_erase] at hl₁ hl₂
        by_cases hp₁ : pid₁ = pid
        · simp [hp₁] at hl₁
        · rw [if_neg hp₁] at hl₁
          by_cases hp₂ : pid₂ = pid
          · simp [hp₂] at hl₂
          · rw [if_neg hp₂] at hl₂
            exact h4 pid₁ pid₂ i₁ i₂ c hne hl₁ hl₂ hc₁

theorem gateWF_step (s : GateState) (op : GateOp) (h : GateWF s) :
    GateWF (gateStep s op) := by
  cases op with
  | ensurePolling pid th => exact gateWF_EnsurePolling s pid th h
  | onInitialSyncComplete pid => exact gateWF_OnInitialSyncComplete s pid h
  | onExpiredToken pid => exact gateWF_OnExpiredToken s pid h

theorem gateWF_run (s : GateState) (ops : List GateOp) (h : GateWF s) :
    GateWF (gateRun s ops) := by
  induction ops generalizing s with
  | nil => exact h
  | cons op rest ih => exact ih (gateStep s op) (gateWF_step s op h)

theorem gateWF_initial : GateWF NewEnsurePoller := by
  refine ⟨?_, ?_, ?_, ?_⟩ <;> simp [NewEnsurePoller, alLookup]

/-- On a reachable state, `EnsurePolling` for an already-tracked poller id
neither changes the state nor publishes. -/
theorem EnsurePolling_noop_of_tracked (s : GateState) (pid : PollerID) (th : String)
    (info : pendingInfo) (hwf : GateWF s)
    (hl : alLookup s.pendingPolls pid = some info) :
    EnsurePolling s pid th = s := by
  obtain ⟨h1, _, _, _⟩ := hwf
  have hpend : s.pending pid = info := by simp [GateState.pending, hl]
  cases hd : info.done with
  | true => exact EnsurePolling_done s pid th (by rw [hpend, hd])
  | false =>
      obtain ⟨_, hb, _⟩ := h1 pid info hl
      obtain ⟨c, hc⟩ := Option.isSome_iff_exists.mp (hb hd)
      exact EnsurePolling_blocked s pid th c (by rw [hpend, hd]) (by rw [hpend, hc])

theorem publishedFor_stable_step (s : GateState) (op : GateOp) (pid : PollerID)
    (hwf : GateWF s) (hsome : (alLookup s.pendingPolls pid).isSome)
    (hno : op ≠ GateOp.onExpiredToken pid) :
    (alLookup (gateStep s op).pendingPolls pid).isSome ∧
      publishedFor (gateStep s op) pid = publishedFor s pid := by
  obtain ⟨info, hl⟩ := Option.isSome_iff_exists.mp hsome
  cases op with
  | ensurePolling pid' th =>
      by_cases hp : pid' = pid
      · subst hp
        rw [show gateStep s (GateOp.ensurePolling pid' th) = s from
          EnsurePolling_noop_of_tracked s pid' th info hwf hl]
        exact ⟨hsome, rfl⟩
      · show (alLookup (EnsurePolling s pid' th).pendingPolls pid).isSome ∧
          publishedFor (EnsurePolling s pid' th) pid = publishedFor s pid
        by_cases hdone : (s.pending pid').done = true
        · rw [EnsurePolling_done s pid' th hdone]
          exact ⟨hsome, rfl⟩
        · replace hdone : (s.pending pid').done = false := by
            cases hx : (s.pending pid').done
            · rfl
            · exact absurd hx hdone
          cases hch : (s.pending pid').ch with
          | some c =>
              rw [EnsurePolling_blocked s pid' th c hdone hch]
              exact ⟨hsome, rfl⟩
          | none =>
              rw [EnsurePolling_fresh s pid' th hdone hch]
              constructor
              · have := alLookup_insert_ne s.pendingPolls pid' pid
                  { done := false, ch := some s.nextCh } (fun hx => hp hx.symm)
                simp only [this]
                exact hsome
              · have hne : (pid'.UserID == pid.UserID && pid'.DeviceID == pid.DeviceID)
                    = false := by
                  cases pid with
                  | mk u d =>
                      cases pid' with
                      | mk u' d' =>
                          simp only [PollerID.mk.injEq, not_and] at hp
                          simp only [Bool.and_eq_false_iff, beq_eq_false_iff_ne, ne_eq]
                          by_cases hu : u' = u
                          · exact Or.inr (hp hu)
                          · exact Or.inl hu
                unfold publishedFor
                simp [List.filter_append, List.filter, hne]
  | onInitialSyncComplete pid' =>
      show (alLookup (OnInitialSyncComplete s pid').pendingPolls pid).isSome ∧
        publishedFor (OnInitialSyncComplete s pid') pid = publishedFor s pid
      cases hl' : alLookup s.pendingPolls pid' with
      | none =>
          rw [OnInitialSyncComplete_absent s pid' hl']
          by_cases hp : pid = pid'
          · subst hp
            simp [alLookup_insert_self, publishedFor]
          · rw [show alLookup (alInsert s.pendingPolls pid'
                { done := true, ch := none }) pid = alLookup s.pendingPolls pid from
              alLookup_insert_ne _ _ _ _ hp]
            exact ⟨hsome, rfl⟩
      | some p =>
          cases hd : p.done with
          | true =>
              rw [OnInitialSyncComplete_done s pid' p hl' hd]
              exact ⟨hsome, rfl⟩
          | false =>
              rw [OnInitialSyncComplete_pending s pid' p hl' hd]
              by_cases hp : pid = pid'
              · subst hp
                simp [alLookup_insert_self, publishedFor]
              · rw [show alLookup (alInsert s.pendingPolls pid'
                    { done := true, ch := none }) pid = alLookup s.pendingPolls pid from
                  alLookup_insert_ne _ _ _ _ hp]
                exact ⟨hsome, rfl⟩
  | onExpiredToken pid' =>
      have hp : pid ≠ pid' := by
        intro hx
        subst hx
        exact hno rfl
      show (alLookup (OnExpiredToken s pid').pendingPolls pid).isSome ∧
        publishedFor (OnExpiredToken s pid') pid = publishedFor s pid
      cases hl' : alLookup s.pendingPolls pid' with
      | none =>
          rw [OnExpiredToken_absent s pid' hl']
          exact ⟨hsome, rfl⟩
      | some p =>
          rw [OnExpiredToken_present s pid' p hl']
          constructor
          · show (alLookup (alErase s.pendingPolls pid') pid).isSome
            rw [alLookup_erase, if_neg hp]
            exact hsome
          · rfl

/-- While a slot persists (no `OnExpiredToken` for it), no further
`V3EnsurePolling` payload is published for that poller id. -/
theorem publishedFor_stable (ops : List GateOp) (s : GateState) (pid : PollerID)
    (hwf : GateWF s) (hsome : (alLookup s.pendingPolls pid).isSome)
    (hno : ∀ op ∈ ops, op ≠ GateOp.onExpiredToken pid) :
    publishedFor (gateRun s ops) pid = publishedFor s pid := by
  induction ops generalizing s with
  | nil => rfl
  | cons op rest ih =>
      obtain ⟨hsome', heq⟩ := publishedFor_stable_step s op pid hwf hsome
        (hno op (List.mem_cons_self op rest))
      have hwf' := gateWF_step s op hwf
      have := ih (gateStep s op) hwf' hsome'
        (fun o ho => hno o (List.mem_cons_of_mem op ho))
      rw [gateRun] at this ⊢
      rw [List.foldl_cons, this, heq]

/-- C1: for every finite sequence of calls to `EnsurePolling`,
`OnInitialSyncComplete` and `OnExpiredToken` starting from the empty gate,
every `pendingPolls` entry whose `done` field is true has a nil channel (its
signal was already released), and no channel is ever closed twice. -/
theorem gate_done_nil_and_close_once (ops : List GateOp) :
    (∀ pid info,
        alLookup (gateRun NewEnsurePoller ops).pendingPolls pid = some info →
        info.done = true → info.ch = none) ∧
    (gateRun NewEnsurePoller ops).closed.Nodup := by
  obtain ⟨h1, h2, _, _⟩ := gateWF_run NewEnsurePoller ops gateWF_initial
  exact ⟨fun pid info hl hd => (h1 pid info hl).1 hd, h2⟩

/-- C2: from any reachable gate state, `EnsurePolling(pid, tokenHash)`
publishes a `V3EnsurePolling` payload on the control channel exactly when no
slot exists for `pid` (and then creates a fresh not-done slot); when a slot
exists — done or still pending — the call leaves the state untouched and
publishes nothing; and as long as the slot persists (no `OnExpiredToken` for
`pid`), no further payload for `pid` is ever published. -/
theorem EnsurePolling_publishes_once (ops : List GateOp) (pid : PollerID)
    (th : String) :
    (alLookup (gateRun NewEnsurePoller ops).pendingPolls pid = none →
        (EnsurePolling (gateRun NewEnsurePoller ops) pid th).published =
          (gateRun NewEnsurePoller ops).published ++
            [{ UserID := pid.UserID, DeviceID := pid.DeviceID,
               AccessTokenHash := th }] ∧
        alLookup (EnsurePolling (gateRun NewEnsurePoller ops) pid th).pendingPolls
            pid = some { done := false, ch := some (gateRun NewEnsurePoller ops).nextCh }) ∧
    (∀ info, alLookup (gateRun NewEnsurePoller ops).pendingPolls pid = some info →
        EnsurePolling (gateRun NewEnsurePoller ops) pid th =
          gateRun NewEnsurePoller ops) ∧
    (∀ ops₂, (alLookup (gateRun NewEnsurePoller ops).pendingPolls pid).isSome →
        (∀ op ∈ ops₂, op ≠ GateOp.onExpiredToken pid) →
        publishedFor (gateRun (gateRun NewEnsurePoller ops) ops₂) pid =
          publishedFor (gateRun NewEnsurePoller ops) pid) := by
  have hwf := gateWF_run NewEnsurePoller ops gateWF_initial
  refine ⟨?_, ?_, ?_⟩
  · intro hnone
    have hd : ((gateRun NewEnsurePoller ops).pending pid).done = false := by
      simp [GateState.pending, hnone]
    have hc : ((gateRun NewEnsurePoller ops).pending pid).ch = none := by
      simp [GateState.pending, hnone]
    rw [EnsurePolling_fresh _ pid th hd hc]
    exact ⟨rfl, alLookup_insert_self _ _ _⟩
  · intro info hl
    exact EnsurePolling_noop_of_tracked _ pid th info hwf hl
  · intro ops₂ hsome hno
    exact publishedFor_stable ops₂ _ pid hwf hsome hno

theorem mem_setInsert (l : List String) (x r : String) :
    r ∈ setInsert l x ↔ r = x ∨ r ∈ l := by
  unfold setInsert
  by_cases h : x ∈ l
  · rw [if_pos h]
    constructor
    · exact Or.inr
    · rintro (rfl | hr)
      · exact h
      · exact hr
  · rw [if_neg h]
    simp [List.mem_append]
    exact Or.comm

theorem mem_setRemove (l : List String) (x r : String) :
    r ∈ setRemove l x ↔ r ∈ l ∧ ¬(r = x) := by
  simp [setRemove, List.mem_filter]

theorem metaOf_OnNewEvent (c : GlobalCache) (ed : EventData) :
    metaOf (OnNewEvent c ed) ed.RoomID =
      { (onNewEventStep (metaOf c ed.RoomID) ed).1 with
        LastMessageTimestamp := ed.Timestamp } := by
  unfold metaOf OnNewEvent
  rw [alLookup_insert_self]
  rfl

theorem metaOf_OnNewEvent_other (c : GlobalCache) (ed : EventData) (r : String)
    (h : r ≠ ed.RoomID) : metaOf (OnNewEvent c ed) r = metaOf c r := by
  unfold metaOf OnNewEvent
  rw [alLookup_insert_ne _ _ _ _ h]

theorem onNewEventStep_spaceChild (metadata : RoomMetadata) (ed : EventData)
    (hty : ed.EventType = "m.space.child") :
    onNewEventStep metadata ed =
      (match ed.StateKey with
       | some sk =>
           if ed.Content.viaIsArray then
             { metadata with ChildSpaceRooms := setInsert metadata.ChildSpaceRooms sk }
           else
             { metadata with ChildSpaceRooms := setRemove metadata.ChildSpaceRooms sk }
       | none => metadata, []) := by
  unfold onNewEventStep
  rw [hty]
  rw [if_neg (by decide : ¬(("m.space.child" : String) = "m.room.name"))]
  rw [if_neg (by decide : ¬(("m.space.child" : String) = "m.room.encryption"))]
  rw [if_neg (by decide : ¬(("m.space.child" : String) = "m.room.tombstone"))]
  rw [if_neg (by decide : ¬(("m.space.child" : String) = "m.room.canonical_alias"))]
  rw [if_neg (by decide : ¬(("m.space.child" : String) = "m.room.create"))]
  rw [if_pos rfl]

/-- C5: for every `m.space.child` event with a non-nil state key, `OnNewEvent`
adds the state key to the room's `ChildSpaceRooms` set when `content.via` is a
JSON array and removes it otherwise (all other members are untouched); a nil
state key leaves the set unchanged. -/
theorem spaceChild_via_iff (c : GlobalCache) (ed : EventData)
    (hty : ed.EventType = "m.space.child") :
    (∀ sk, ed.StateKey = some sk →
        ∀ r, r ∈ (metaOf (OnNewEvent c ed) ed.RoomID).ChildSpaceRooms ↔
          (if ed.Content.viaIsArray then
             r = sk ∨ r ∈ (metaOf c ed.RoomID).ChildSpaceRooms
           else r ∈ (metaOf c ed.RoomID).ChildSpaceRooms ∧ ¬(r = sk))) ∧
    (ed.StateKey = none →
        (metaOf (OnNewEvent c ed) ed.RoomID).ChildSpaceRooms =
          (metaOf c ed.RoomID).ChildSpaceRooms) := by
  rw [metaOf_OnNewEvent c ed, onNewEventStep_spaceChild _ ed hty]
  constructor
  · intro sk hsk r
    rw [hsk]
    by_cases hvia : ed.Content.viaIsArray
    · simp only [hvia, if_true, if_pos]
      exact mem_setInsert _ _ _
    · simp only [hvia, if_false, Bool.false_eq_true]
      exact mem_setRemove _ _ _
  · intro hsk
    rw [hsk]

/-- C5 witness: the space-child theorem instantiated at a concrete event. -/
theorem spaceChild_via_iff_witness :
    (∀ sk, spaceChildEvent.StateKey = some sk →
        ∀ r, r ∈ (metaOf (OnNewEvent NewGlobalCache spaceChildEvent)
            spaceChildEvent.RoomID).ChildSpaceRooms ↔
          (if spaceChildEvent.Content.viaIsArray then
             r = sk ∨ r ∈ (metaOf NewGlobalCache spaceChildEvent.RoomID).ChildSpaceRooms
           else r ∈ (metaOf NewGlobalCache spaceChildEvent.RoomID).ChildSpaceRooms ∧
             ¬(r = sk))) ∧
    (spaceChildEvent.StateKey = none →
        (metaOf (OnNewEvent NewGlobalCache spaceChildEvent)
            spaceChildEvent.RoomID).ChildSpaceRooms =
          (metaOf NewGlobalCache spaceChildEvent.RoomID).ChildSpaceRooms) :=
  spaceChild_via_iff NewGlobalCache spaceChildEvent rfl

/-- C10: `OnEphemeralEvent` on a room with no metadata inserts a fresh entry
whatever the event type; on an existing entry a non-typing event changes
nothing and an `m.typing` event overwrites only `TypingEvent`. -/
theorem OnEphemeralEvent_frame (c : GlobalCache) (roomID : String)
    (ev : EphemeralEvent) :
    (alLookup c.roomIDToMetadata roomID = none → ¬(ev.evType = "m.typing") →
        alLookup (OnEphemeralEvent c roomID ev).roomIDToMetadata roomID =
          some (RoomMetadata.fresh roomID)) ∧
    (∀ md, alLookup c.roomIDToMetadata roomID = some md →
        ¬(ev.evType = "m.typing") →
        alLookup (OnEphemeralEvent c roomID ev).roomIDToMetadata roomID = some md) ∧
    (∀ md, alLookup c.roomIDToMetadata roomID = some md → ev.evType = "m.typing" →
        alLookup (OnEphemeralEvent c roomID ev).roomIDToMetadata roomID =
          some { md with TypingEvent := some ev.raw }) := by
  refine ⟨?_, ?_, ?_⟩
  · intro hl hne
    unfold OnEphemeralEvent
    rw [hl]
    simp only [Option.getD_none, if_neg hne]
    exact alLookup_insert_self _ _ _
  · intro md hl hne
    unfold OnEphemeralEvent
    rw [hl]
    simp only [Option.getD_some, if_neg hne]
    exact alLookup_insert_self _ _ _
  · intro md hl he
    unfold OnEphemeralEvent
    rw [hl]
    simp only [Option.getD_some, if_pos he]
    exact alLookup_insert_self _ _ _

theorem RemoveHero_length_le (hs : List Hero) (u : String) :
    (RemoveHero hs u).length ≤ hs.length :=
  List.length_filter_le _ _

theorem RemoveHero_subset (hs : List Hero) (u : String) (h : Hero)
    (hm : h ∈ RemoveHero hs u) : h ∈ hs :=
  List.mem_of_mem_filter hm

theorem RemoveHero_no_id (hs : List Hero) (u : String) :
    ∀ h ∈ RemoveHero hs u, ¬(h.ID = u) := by
  intro h hm
  simp [RemoveHero, List.mem_filter] at hm
  exact hm.2

theorem updateHeroName_length (hs : List Hero) (sk n : String) :
    (updateHeroName hs sk n).length = hs.length := by
  induction hs with
  | nil => rfl
  | cons h t ih =>
      unfold updateHeroName
      by_cases hid : h.ID = sk
      · rw [if_pos hid]
        rfl
      · rw [if_neg hid]
        simp [ih]

theorem updateHeroName_id_mem (hs : List Hero) (sk n : String) (h' : Hero)
    (hm : h' ∈ updateHeroName hs sk n) : ∃ h ∈ hs, h'.ID = h.ID := by
  induction hs with
  | nil => cases hm
  | cons h t ih =>
      unfold updateHeroName at hm
      by_cases hid : h.ID = sk
      · rw [if_pos hid] at hm
        cases hm with
        | head => exact ⟨_, List.mem_cons_self _ _, rfl⟩
        | tail _ hm => exact ⟨h', List.mem_cons_of_mem h hm, rfl⟩
      · rw [if_neg hid] at hm
        cases hm with
        | head => exact ⟨_, List.mem_cons_self _ _, rfl⟩
        | tail _ hm =>
            obtain ⟨g, hg, he⟩ := ih hm
            exact ⟨g, List.mem_cons_of_mem h hg, he⟩

theorem heroGrow_len (l : List Hero) (sk n : String) (P : Prop) [Decidable P]
    (hlen : l.length ≤ 6) :
    (if l.length < 6 ∧ P then
       (if l.any (fun h => h.ID == sk) then updateHeroName l sk n
        else l ++ [{ ID := sk, Name := n }])
     else l).length ≤ 6 := by
  by_cases h : l.length < 6 ∧ P
  · rw [if_pos h]
    by_cases hf : l.any (fun h => h.ID == sk) = true
    · rw [if_pos hf, updateHeroName_length]
      exact hlen
    · rw [if_neg hf, List.length_append]
      exact h.1
  · rw [if_neg h]
    exact hlen

theorem heroGrow_no_id (l : List Hero) (sk n u : String) (P : Prop) [Decidable P]
    (hall : ∀ h ∈ l, ¬(h.ID = u)) (hsk : ¬(sk = u)) :
    ∀ h ∈ (if l.length < 6 ∧ P then
       (if l.any (fun h => h.ID == sk) then updateHeroName l sk n
        else l ++ [{ ID := sk, Name := n }])
     else l), ¬(h.ID = u) := by
  by_cases hc : l.length < 6 ∧ P
  · rw [if_pos hc]
    by_cases hf : l.any (fun h => h.ID == sk) = true
    · rw [if_pos hf]
      intro h hm
      obtain ⟨g, hg, he⟩ := updateHeroName_id_mem l sk n h hm
      rw [he]
      exact hall g hg
    · rw [if_neg hf]
      intro h hm
      rcases List.mem_append.mp hm with hm | hm
      · exact hall h hm
      · simp only [List.mem_singleton] at hm
        rw [hm]
        exact hsk
  · rw [if_neg hc]
    exact hall

theorem heroGrow_eq_of_notP (l : List Hero) (sk n : String) (P : Prop) [Decidable P]
    (hP : ¬P) :
    (if l.length < 6 ∧ P then
       (if l.any (fun h => h.ID == sk) then updateHeroName l sk n
        else l ++ [{ ID := sk, Name := n }])
     else l) = l :=
  if_neg (fun hc => hP hc.2)

theorem memberStep_heroes_len (m : RoomMetadata) (ed : EventData) (sk : String)
    (hlen : m.Heroes.length ≤ 6) :
    (memberStep m ed sk).1.Heroes.length ≤ 6 := by
  unfold memberStep
  dsimp only
  simp only [apply_ite RoomMetadata.Heroes]
  refine heroGrow_len _ sk ed.Content.displayname
    (ed.Content.membership = "join" ∨ ed.Content.membership = "invite") ?_
  split_ifs
  · exact le_trans (RemoveHero_length_le _ _) hlen
  · exact hlen
  · exact hlen

theorem memberStep_no_id (m : RoomMetadata) (ed : EventData) (sk u : String)
    (hall : ∀ h ∈ m.Heroes, ¬(h.ID = u)) (hsk : ¬(sk = u)) :
    ∀ h ∈ (memberStep m ed sk).1.Heroes, ¬(h.ID = u) := by
  unfold memberStep
  dsimp only
  simp only [apply_ite RoomMetadata.Heroes]
  refine heroGrow_no_id _ sk ed.Content.displayname u
    (ed.Content.membership = "join" ∨ ed.Content.membership = "invite") ?_ hsk
  split_ifs
  · intro h hm
    exact hall h (RemoveHero_subset _ _ _ hm)
  · exact hall
  · exact hall

theorem memberStep_removes (m : RoomMetadata) (ed : EventData) (sk : String)
    (hch : IsMembershipChange ed = true)
    (hlb : ed.Content.membership = "leave" ∨ ed.Content.membership = "ban") :
    ∀ h ∈ (memberStep m ed sk).1.Heroes, ¬(h.ID = sk) := by
  have hni : ¬(ed.Content.membership = "join" ∨ ed.Content.membership = "invite") := by
    intro hcon
    rcases hlb with h | h <;> rcases hcon with h' | h' <;> rw [h] at h' <;>
      exact absurd h' (by decide)
  unfold memberStep
  dsimp only
  simp only [apply_ite RoomMetadata.Heroes]
  rw [heroGrow_eq_of_notP _ _ _ _ hni, if_pos hch, if_pos hlb]
  exact RemoveHero_no_id _ _

theorem onNewEventStep_member (m : RoomMetadata) (ed : EventData)
    (hty : ed.EventType = "m.room.member") :
    onNewEventStep m ed =
      (match ed.StateKey with
       | some sk => memberStep m ed sk
       | none => (m, [])) := by
  unfold onNewEventStep
  rw [hty]
  rw [if_neg (by decide : ¬(("m.room.member" : String) = "m.room.name"))]
  rw [if_neg (by decide : ¬(("m.room.member" : String) = "m.room.encryption"))]
  rw [if_neg (by decide : ¬(("m.room.member" : String) = "m.room.tombstone"))]
  rw [if_neg (by decide : ¬(("m.room.member" : String) = "m.room.canonical_alias"))]
  rw [if_neg (by decide : ¬(("m.room.member" : String) = "m.room.create"))]
  rw [if_neg (by decide : ¬(("m.room.member" : String) = "m.space.child"))]
  rw [if_pos rfl]

theorem onNewEventStep_heroes_nonmember (m : RoomMetadata) (ed : EventData)
    (hne : ¬(ed.EventType = "m.room.member")) :
    (onNewEventStep m ed).1.Heroes = m.Heroes := by
  unfold onNewEventStep
  dsimp only
  split_ifs <;>
    first
    | rfl
    | (exact absurd (by assumption) hne)
    | (cases ed.StateKey <;> first | rfl | (split_ifs <;> rfl))
    | (cases ed.Content.roomType <;> rfl)

theorem onNewEventStep_heroes_len (m : RoomMetadata) (ed : EventData)
    (hlen : m.Heroes.length ≤ 6) :
    (onNewEventStep m ed).1.Heroes.length ≤ 6 := by
  by_cases hty : ed.EventType = "m.room.member"
  · rw [onNewEventStep_member m ed hty]
    cases hsk : ed.StateKey with
    | some sk => exact memberStep_heroes_len m ed sk hlen
    | none => exact hlen
  · rw [onNewEventStep_heroes_nonmember m ed hty]
    exact hlen

theorem onNewEventStep_no_id (m : RoomMetadata) (ed : EventData) (u : String)
    (hall : ∀ h ∈ m.Heroes, ¬(h.ID = u))
    (hcond : ¬(ed.EventType = "m.room.member" ∧ ed.StateKey = some u)) :
    ∀ h ∈ (onNewEventStep m ed).1.Heroes, ¬(h.ID = u) := by
  by_cases hty : ed.EventType = "m.room.member"
  · rw [onNewEventStep_member m ed hty]
    cases hsk : ed.StateKey with
    | some sk =>
        have hsku : ¬(sk = u) := by
          intro he
          exact hcond ⟨hty, by rw [hsk, he]⟩
        exact memberStep_no_id m ed sk u hall hsku
    | none => exact hall
  · rw [onNewEventStep_heroes_nonmember m ed hty]
    exact hall

theorem metaOf_heroes_OnNewEvent (c : GlobalCache) (ed : EventData) (R : String) :
    (metaOf (OnNewEvent c ed) R).Heroes =
      if R = ed.RoomID then (onNewEventStep (metaOf c ed.RoomID) ed).1.Heroes
      else (metaOf c R).Heroes := by
  by_cases hR : R = ed.RoomID
  · rw [if_pos hR, hR, metaOf_OnNewEvent]
  · rw [if_neg hR, metaOf_OnNewEvent_other c ed R hR]

theorem OnNewEvent_heroes_len (c : GlobalCache) (ed : EventData) (R : String)
    (h : (metaOf c R).Heroes.length ≤ 6) :
    (metaOf (OnNewEvent c ed) R).Heroes.length ≤ 6 := by
  rw [metaOf_heroes_OnNewEvent]
  by_cases hR : R = ed.RoomID
  · rw [if_pos hR]
    refine onNewEventStep_heroes_len _ _ ?_
    rw [← hR]
    exact h
  · rw [if_neg hR]
    exact h

theorem OnNewEvent_no_id (c : GlobalCache) (ed : EventData) (R u : String)
    (hall : ∀ h ∈ (metaOf c R).Heroes, ¬(h.ID = u))
    (hcond : ¬(ed.RoomID = R ∧ ed.EventType = "m.room.member" ∧
        ed.StateKey = some u)) :
    ∀ h ∈ (metaOf (OnNewEvent c ed) R).Heroes, ¬(h.ID = u) := by
  rw [metaOf_heroes_OnNewEvent]
  by_cases hR : R = ed.RoomID
  · rw [if_pos hR]
    refine onNewEventStep_no_id _ _ _ ?_ ?_
    · rw [← hR]
      exact hall
    · intro hc
      exact hcond ⟨hR.symm, hc.1, hc.2⟩
  · rw [if_neg hR]
    exact hall

theorem OnNewEvent_removes (c : GlobalCache) (ed : EventData) (u : String)
    (hty : ed.EventType = "m.room.member") (hsk : ed.StateKey = some u)
    (hch : IsMembershipChange ed = true)
    (hlb : ed.Content.membership = "leave" ∨ ed.Content.membership = "ban") :
    ∀ h ∈ (metaOf (OnNewEvent c ed) ed.RoomID).Heroes, ¬(h.ID = u) := by
  have hmeta := metaOf_heroes_OnNewEvent c ed ed.RoomID
  rw [if_pos rfl] at hmeta
  rw [hmeta, onNewEventStep_member _ _ hty, hsk]
  exact memberStep_removes _ ed u hch hlb

theorem processEvents_append_singleton (c : GlobalCache) (es : List EventData)
    (e : EventData) :
    processEvents c (es ++ [e]) = OnNewEvent (processEvents c es) e := by
  unfold processEvents
  rw [List.foldl_append]
  rfl

theorem processEvents_heroes_len (events : List EventData) :
    ∀ c R, (metaOf c R).Heroes.length ≤ 6 →
      (metaOf (processEvents c events) R).Heroes.length ≤ 6 := by
  induction events with
  | nil => intro c R h; exact h
  | cons e rest ih =>
      intro c R h
      exact ih (OnNewEvent c e) R (OnNewEvent_heroes_len c e R h)

theorem processEvents_last_leave_ban (R u : String) (e : EventData)
    (hch : IsMembershipChange e = true)
    (hlb : e.Content.membership = "leave" ∨ e.Content.membership = "ban")
    (events : List EventData) :
    ∀ c, (∀ e' ∈ events, e'.EventType = "m.room.member" ∧ e'.RoomID = R) →
      lastMemberEventFor events u = some e →
      ∀ h ∈ (metaOf (processEvents c events) R).Heroes, ¬(h.ID = u) := by
  induction events using List.reverseRecOn with
  | nil =>
      intro c _ hlast
      simp [lastMemberEventFor] at hlast
  | append_singleton es ev ih =>
      intro c hall hlast
      have hall' : ∀ e' ∈ es, e'.EventType = "m.room.member" ∧ e'.RoomID = R :=
        fun e' he' => hall e' (List.mem_append_left _ he')
      have hev := hall ev (List.mem_append_right _ (List.mem_singleton_self ev))
      rw [processEvents_append_singleton]
      by_cases hsk : ev.StateKey = some u
      · have hlaste : lastMemberEventFor (es ++ [ev]) u = some ev := by
          unfold lastMemberEventFor
          rw [List.filter_append]
          have : List.filter (fun e' => decide (e'.StateKey = some u)) [ev] = [ev] := by
            simp [hsk]
          rw [this, List.getLast?_concat]
        rw [hlaste] at hlast
        cases hlast
        have hrem := OnNewEvent_removes (processEvents c es) e u hev.1 hsk hch hlb
        rw [hev.2] at hrem
        exact hrem
      · have hlast' : lastMemberEventFor es u = some e := by
          unfold lastMemberEventFor at hlast ⊢
          rw [List.filter_append] at hlast
          have : List.filter (fun e' => decide (e'.StateKey = some u)) [ev] = [] := by
            simp [hsk]
          rw [this, List.append_nil] at hlast
          exact hlast
        refine OnNewEvent_no_id _ ev R u (ih c hall' hlast') ?_
        intro hc
        exact hsk hc.2.2

/-- C4 counterexample: starting from an empty room (heroes empty, hence at
most 6 and free of leave/ban members), after a membership-change join for
`@u` followed by a duplicate leave (membership `leave`, not a membership
change since the previous membership was already `leave`), the latest
membership of `@u` in the sequence is `leave`, yet `@u` is still a hero. -/
theorem heroes_latest_leave_counterexample :
    (metaOf NewGlobalCache "!r").Heroes = [] ∧
    (∀ e ∈ [eventJoinU, eventDupLeaveU],
        e.EventType = "m.room.member" ∧ e.RoomID = "!r") ∧
    lastMemberEventFor [eventJoinU, eventDupLeaveU] "@u" = some eventDupLeaveU ∧
    eventDupLeaveU.Content.membership = "leave" ∧
    (metaOf (processEvents NewGlobalCache [eventJoinU, eventDupLeaveU]) "!r").Heroes
      = [{ ID := "@u", Name := "U" }] := by
  decide

/-- C4 (amended): over any sequence of `m.room.member` events for a room,
the heroes list keeps length at most 6 (when it starts so), and any user
whose latest member event in the sequence is a membership change to `leave`
or `ban` is absent from the heroes afterwards.  (The original claim, over
the latest membership regardless of whether the event was a membership
change, fails: see the counterexample.) -/
theorem heroes_bound_and_leave_ban_removed (c : GlobalCache) (R : String)
    (events : List EventData)
    (hall : ∀ e ∈ events, e.EventType = "m.room.member" ∧ e.RoomID = R)
    (hlen : (metaOf c R).Heroes.length ≤ 6) :
    (metaOf (processEvents c events) R).Heroes.length ≤ 6 ∧
    (∀ u e, lastMemberEventFor events u = some e →
        IsMembershipChange e = true →
        e.Content.membership = "leave" ∨ e.Content.membership = "ban" →
        ∀ h ∈ (metaOf (processEvents c events) R).Heroes, ¬(h.ID = u)) := by
  constructor
  · exact processEvents_heroes_len events c R hlen
  · intro u e hlast hch hlb
    exact processEvents_last_leave_ban R u e hch hlb events c hall hlast

/-- C4 witness: the amended theorem instantiated at a concrete one-event run. -/
theorem heroes_bound_and_leave_ban_removed_witness :
    (metaOf (processEvents NewGlobalCache [eventJoinU]) "!r").Heroes.length ≤ 6 ∧
    (∀ u e, lastMemberEventFor [eventJoinU] u = some e →
        IsMembershipChange e = true →
        e.Content.membership = "leave" ∨ e.Content.membership = "ban" →
        ∀ h ∈ (metaOf (processEvents NewGlobalCache [eventJoinU]) "!r").Heroes,
          ¬(h.ID = u)) :=
  heroes_bound_and_leave_ban_removed NewGlobalCache "!r" [eventJoinU]
    (by decide) (by decide)

theorem insertSorted_perm (x : String × RoomMetadata)
    (l : List (String × RoomMetadata)) : (insertSorted x l).Perm (x :: l) := by
  induction l with
  | nil => exact List.Perm.refl _
  | cons y ys ih =>
      unfold insertSorted
      by_cases h : x.1 ≤ y.1
      · rw [if_pos h]
      · rw [if_neg h]
        exact List.Perm.trans (List.Perm.cons y ih) (List.Perm.swap x y ys)

theorem sortEntries_perm (l : List (String × RoomMetadata)) :
    (sortEntries l).Perm l := by
  induction l with
  | nil => exact List.Perm.refl _
  | cons x xs ih =>
      unfold sortEntries
      exact List.Perm.trans (insertSorted_perm x (sortEntries xs)) (List.Perm.cons x ih)

theorem alLookup_eq_none {α β : Type} [DecidableEq α] (l : List (α × β)) (k : α)
    (h : k ∉ l.map Prod.fst) : alLookup l k = none := by
  induction l with
  | nil => rfl
  | cons p rest ih =>
      rw [List.map_cons, List.mem_cons] at h
      push_neg at h
      rw [alLookup, if_neg h.1]
      exact ih h.2

theorem alLookup_congr_perm {α β : Type} [DecidableEq α]
    {l l' : List (α × β)} (p : l.Perm l') :
    ∀ (hn : (l.map Prod.fst).Nodup) (k : α), alLookup l k = alLookup l' k := by
  induction p with
  | nil => intro _ _; rfl
  | cons x p ih =>
      intro hn k
      rw [alLookup, alLookup]
      by_cases hk : k = x.1
      · rw [if_pos hk, if_pos hk]
      · rw [if_neg hk, if_neg hk]
        rw [List.map_cons, List.nodup_cons] at hn
        exact ih hn.2 k
  | swap x y t =>
      intro hn k
      rw [List.map_cons, List.map_cons, List.nodup_cons, List.mem_cons] at hn
      push_neg at hn
      rw [alLookup, alLookup, alLookup, alLookup]
      by_cases hky : k = y.1 <;> by_cases hkx : k = x.1
      · exfalso
        exact hn.1.1 (hky.symm.trans hkx)
      · rw [if_pos hky, if_neg hkx, if_pos hky]
      · rw [if_neg hky, if_pos hkx, if_pos hkx]
      · rw [if_neg hky, if_neg hkx, if_neg hkx, if_neg hky]
  | trans p₁ p₂ ih₁ ih₂ =>
      intro hn k
      have hn₂ := (List.Perm.nodup_iff (List.Perm.map Prod.fst p₁)).mp hn
      rw [ih₁ hn k, ih₂ hn₂ k]

theorem startupStep_eq (cache : GlobalCache) (entry : String × RoomMetadata)
    (h1 : ¬(entry.2.RoomID = "")) (h2 : entry.2.LastMessageTimestamp > 1) :
    startupStep cache entry =
      some { cache with
              roomIDToMetadata := alInsert cache.roomIDToMetadata entry.1 entry.2 } := by
  simp [startupStep, Assert, h1, h2]

theorem Startup_fold (l : List (String × RoomMetadata)) :
    ∀ cache : GlobalCache, (l.map Prod.fst).Nodup →
      (∀ p ∈ l, ¬(p.2.RoomID = "") ∧ p.2.LastMessageTimestamp > 1) →
      ∃ c', l.foldlM startupStep cache = some c' ∧
        ∀ r, alLookup c'.roomIDToMetadata r =
          (match alLookup l r with
           | some v => some v
           | none => alLookup cache.roomIDToMetadata r) := by
  induction l with
  | nil =>
      intro cache _ _
      exact ⟨cache, rfl, fun r => rfl⟩
  | cons p rest ih =>
      intro cache hnodup hpre
      obtain ⟨h1, h2⟩ := hpre p (List.mem_cons_self p rest)
      rw [List.map_cons, List.nodup_cons] at hnodup
      have hpre' : ∀ q ∈ rest, ¬(q.2.RoomID = "") ∧ q.2.LastMessageTimestamp > 1 :=
        fun q hq => hpre q (List.mem_cons_of_mem p hq)
      obtain ⟨c', hc', hlook⟩ :=
        ih { cache with roomIDToMetadata := alInsert cache.roomIDToMetadata p.1 p.2 }
          hnodup.2 hpre'
      refine ⟨c', ?_, ?_⟩
      · rw [List.foldlM_cons, startupStep_eq cache p h1 h2]
        exact hc'
      · intro r
        rw [hlook r, alLookup]
        by_cases hr : r = p.1
        · rw [if_pos hr]
          have hnone : alLookup rest r = none := by
            refine alLookup_eq_none rest r ?_
            rw [hr]
            exact hnodup.1
          rw [hnone, hr, alLookup_insert_self]
        · rw [if_neg hr]
          cases hrest : alLookup rest r with
          | some v => rfl
          | none => rw [alLookup_insert_ne _ _ _ _ hr]

/-- C3 counterexample: metadata with a non-empty room id and
`last_message_timestamp = 1 > 0` still fails `Startup`, because the source
asserts `LastMessageTimestamp > 1`, not `> 0`. -/
theorem Startup_timestamp_one_fails :
    ¬(mdTs1.RoomID = "") ∧ mdTs1.LastMessageTimestamp > 0 ∧
    Startup NewGlobalCache [("!r", mdTs1)] = none := by
  decide

/-- C3 (amended): `Startup` succeeds on every input map whose entries have a
non-empty room id and `last_message_timestamp > 1` (the source asserts
`> 1`, not the claimed `> 0`), and afterwards the cache holds exactly the
given entries. -/
theorem Startup_ok (input : List (String × RoomMetadata))
    (hkeys : (input.map Prod.fst).Nodup)
    (hpre : ∀ p ∈ input, ¬(p.2.RoomID = "") ∧ p.2.LastMessageTimestamp > 1) :
    ∃ c', Startup NewGlobalCache input = some c' ∧
      ∀ r, alLookup c'.roomIDToMetadata r = alLookup input r := by
  have hperm := sortEntries_perm input
  have hkeys' : ((sortEntries input).map Prod.fst).Nodup :=
    (List.Perm.nodup_iff (List.Perm.map Prod.fst hperm)).mpr hkeys
  have hpre' : ∀ p ∈ sortEntries input,
      ¬(p.2.RoomID = "") ∧ p.2.LastMessageTimestamp > 1 :=
    fun p hp => hpre p (hperm.mem_iff.mp hp)
  obtain ⟨c', hc', hlook⟩ := Startup_fold (sortEntries input) NewGlobalCache hkeys' hpre'
  refine ⟨c', hc', ?_⟩
  intro r
  rw [hlook r]
  have hsorted : alLookup (sortEntries input) r = alLookup input r :=
    alLookup_congr_perm hperm hkeys' r
  rw [hsorted]
  cases hin : alLookup input r with
  | some v => rfl
  | none => rfl

/-- C3 witness: the amended startup theorem at a concrete singleton input. -/
theorem Startup_ok_witness :
    ∃ c', Startup NewGlobalCache [("!a", mdTs2)] = some c' ∧
      ∀ r, alLookup c'.roomIDToMetadata r = alLookup [("!a", mdTs2)] r :=
  Startup_ok [("!a", mdTs2)] (by decide) (by decide)

theorem decStrs_map_str (ids : List String) :
    decStrs (ids.map JSON.str) = some ids := by
  induction ids with
  | nil => rfl
  | cons s rest ih => simp [decStrs, ih]

theorem unmarshalOp_marshalOpSingle (s : ResponseOpSingle) :
    unmarshalOp (marshalOpSingle s) = some (ResponseOp.single s) := by
  obtain ⟨o, idx, rid⟩ := s
  cases idx with
  | none =>
      by_cases hrid : rid = ""
      · subst hrid
        simp [marshalOpSingle, unmarshalOp, alLookup, parseSingleOp,
          decStringField, decIntPtrField]
      · simp [marshalOpSingle, unmarshalOp, alLookup, parseSingleOp,
          decStringField, decIntPtrField, hrid]
  | some i =>
      by_cases hrid : rid = ""
      · subst hrid
        simp [marshalOpSingle, unmarshalOp, alLookup, parseSingleOp,
          decStringField, decIntPtrField]
      · simp [marshalOpSingle, unmarshalOp, alLookup, parseSingleOp,
          decStringField, decIntPtrField, hrid]

theorem unmarshalOp_marshalOpRange (r : ResponseOpRange) :
    unmarshalOp (marshalOpRange r) = some (ResponseOp.range r) := by
  obtain ⟨o, ⟨a, b⟩, ids⟩ := r
  by_cases hids : ids.isEmpty = true
  · rw [List.isEmpty_iff] at hids
    subst hids
    simp [marshalOpRange, unmarshalOp, alLookup, parseRangeOp,
      decStringField, decRangeField, decStrListField, decNums, List.take]
  · simp [marshalOpRange, unmarshalOp, alLookup, parseRangeOp,
      decStringField, decRangeField, decStrListField, decNums, List.take,
      hids, decStrs_map_str]

theorem unmarshal_marshal_op (op : ResponseOp) :
    unmarshalOp (marshalOp op) = some op := by
  cases op with
  | range r => exact unmarshalOp_marshalOpRange r
  | single s => exact unmarshalOp_marshalOpSingle s

/-- C6: `Response.UnmarshalJSON`'s op loop parses an op object as a range op
(SYNC/INVALIDATE) exactly when it carries a `range` field and as a single op
(INSERT/DELETE) otherwise; marshalling and unmarshalling any op is the
identity — in particular a single op with `Index` pointing at 0 serializes
an `index` field equal to 0 and round-trips to index 0, while a nil `Index`
omits the field. -/
theorem responseOp_wire_roundtrip :
    (∀ fields op', unmarshalOp (JSON.obj fields) = some op' →
        ((∃ r, op' = ResponseOp.range r) ↔ (alLookup fields "range").isSome = true)) ∧
    (∀ op, unmarshalOp (marshalOp op) = some op) ∧
    (∀ s : ResponseOpSingle, s.Index = some 0 →
        alLookup (objFields (marshalOpSingle s)) "index" = some (JSON.num 0)) ∧
    (∀ s : ResponseOpSingle, s.Index = none →
        alLookup (objFields (marshalOpSingle s)) "index" = none) ∧
    (∀ s : ResponseOpSingle,
        unmarshalOps [marshalOpSingle s] = some [ResponseOp.single s]) := by
  refine ⟨?_, unmarshal_marshal_op, ?_, ?_, ?_⟩
  · intro fields op' h
    replace h :
        (if (alLookup fields "range").isSome = true then
          Option.map ResponseOp.range (parseRangeOp fields)
        else Option.map ResponseOp.single (parseSingleOp fields)) = some op' := h
    by_cases hr : (alLookup fields "range").isSome = true
    · rw [if_pos hr] at h
      refine ⟨fun _ => hr, fun _ => ?_⟩
      cases hp : parseRangeOp fields with
      | none => rw [hp] at h; cases h
      | some r =>
          rw [hp] at h
          simp only [Option.map_some', Option.some.injEq] at h
          exact ⟨r, h.symm⟩
    · rw [if_neg hr] at h
      constructor
      · rintro ⟨r, hrop⟩
        subst hrop
        cases hp : parseSingleOp fields with
        | none => rw [hp] at h; cases h
        | some s =>
            rw [hp] at h
            simp only [Option.map_some', Option.some.injEq] at h
            cases h
      · intro hcontra
        exact absurd hcontra hr
  · intro s h
    obtain ⟨o, idx, rid⟩ := s
    simp only at h
    subst h
    by_cases hrid : rid = ""
    · subst hrid
      simp [marshalOpSingle, objFields, alLookup]
    · simp [marshalOpSingle, objFields, alLookup, hrid]
  · intro s h
    obtain ⟨o, idx, rid⟩ := s
    simp only at h
    subst h
    by_cases hrid : rid = ""
    · subst hrid
      simp [marshalOpSingle, objFields, alLookup]
    · simp [marshalOpSingle, objFields, alLookup, hrid]
  · intro s
    simp [unmarshalOps, unmarshalOp_marshalOpSingle s]

/-- C7: `NewSession` for a device that already has a `v2devices` row leaves
the row (in particular its `since`) untouched and returns the existing
`since` and `user_id`; only for an unknown device is a row inserted, with an
empty `since` (and empty `user_id`). -/
theorem NewSession_preserves_since (db : SessionsDB) (deviceID : String) :
    (∀ row, alLookup db.v2devices deviceID = some row →
        (NewSession db deviceID).2.v2devices = db.v2devices ∧
        (NewSession db deviceID).1.V2Since = row.since ∧
        (NewSession db deviceID).1.UserID = row.user_id) ∧
    (alLookup db.v2devices deviceID = none →
        (NewSession db deviceID).2.v2devices =
          alInsert db.v2devices deviceID { user_id := "", since := "" } ∧
        (NewSession db deviceID).1.V2Since = "" ∧
        (NewSession db deviceID).1.UserID = "") := by
  constructor
  · intro row h
    unfold NewSession
    dsimp only
    rw [h]
    exact ⟨rfl, rfl, rfl⟩
  · intro h
    unfold NewSession
    dsimp only
    rw [h]
    exact ⟨rfl, rfl, rfl⟩

/-- C8: with the transaction begun, a callback that panics or returns an
error makes `WithTransaction` roll back and return a non-nil error (a panic
becomes the error `panic: v` and is not propagated), while a callback
returning nil commits. -/
theorem WithTransaction_rollback_on_failure (fnRes : FnOutcome)
    (commitErr rollbackErr : Option String) :
    (∀ v, fnRes = FnOutcome.panics v →
        WithTransaction none fnRes commitErr rollbackErr =
          { action := some TxnAction.rolledBack, err := some ("panic: " ++ v),
            panicked := none }) ∧
    (∀ e, fnRes = FnOutcome.err e →
        WithTransaction none fnRes commitErr rollbackErr =
          { action := some TxnAction.rolledBack, err := some e,
            panicked := none }) ∧
    (fnRes = FnOutcome.ok →
        (WithTransaction none fnRes commitErr rollbackErr).action =
          some TxnAction.committed) := by
  refine ⟨?_, ?_, ?_⟩
  · intro v h
    subst h
    rfl
  · intro e h
    subst h
    rfl
  · intro h
    subst h
    rfl

theorem mergeGroup_some (vs ds : List String) :
    mergeGroup (some vs) ds = some (vs ++ ds) := by
  cases ds <;> rfl

theorem mergeGroup_merge (prev : Option (List String)) (d : String)
    (ds : List String) :
    mergeGroup (mergeGroup prev [d]) ds = mergeGroup prev (d :: ds) := by
  cases prev with
  | none =>
      rw [show mergeGroup none [d] = some [d] from rfl, mergeGroup_some]
      rfl
  | some vs =>
      rw [mergeGroup_some, mergeGroup_some, mergeGroup_some]
      simp

theorem appendRoomData_lookup_self (m : List (String × List String))
    (k v : String) :
    alLookup (appendRoomData m k v) k = mergeGroup (alLookup m k) [v] := by
  induction m with
  | nil => simp [appendRoomData, alLookup, mergeGroup]
  | cons p rest ih =>
      obtain ⟨k', vs⟩ := p
      unfold appendRoomData
      by_cases hk : k' = k
      · rw [if_pos hk]
        have hkk : k = k' := hk.symm
        simp [alLookup, hkk, mergeGroup]
      · rw [if_neg hk]
        have hkk : ¬(k = k') := fun hh => hk hh.symm
        simp [alLookup, hkk, ih]

theorem appendRoomData_lookup_ne (m : List (String × List String))
    (k v r : String) (h : ¬(r = k)) :
    alLookup (appendRoomData m k v) r = alLookup m r := by
  induction m with
  | nil => simp [appendRoomData, alLookup, h]
  | cons p rest ih =>
      obtain ⟨k', vs⟩ := p
      unfold appendRoomData
      by_cases hk : k' = k
      · rw [if_pos hk]
        have : ¬(r = k') := fun hh => h (hh.trans hk)
        simp [alLookup, this]
      · rw [if_neg hk]
        by_cases hr : r = k'
        · simp [alLookup, hr]
        · simp [alLookup, hr, ih]

theorem groupFold_lookup (rows : List AccountData) :
    ∀ (m : List (String × List String)) (r : String),
      alLookup (rows.foldl (fun m ad => appendRoomData m ad.RoomID ad.Data) m) r =
        mergeGroup (alLookup m r) (roomDatas rows r) := by
  induction rows with
  | nil =>
      intro m r
      cases h : alLookup m r <;> simp [roomDatas, mergeGroup, h]
  | cons ad rest ih =>
      intro m r
      rw [List.foldl_cons, ih]
      by_cases hr : ad.RoomID = r
      · have hdatas : roomDatas (ad :: rest) r = ad.Data :: roomDatas rest r := by
          simp [roomDatas, List.filter, hr]
        rw [hdatas, ← mergeGroup_merge]
        have hself : alLookup (appendRoomData m ad.RoomID ad.Data) r =
            mergeGroup (alLookup m r) [ad.Data] := by
          rw [← hr]
          exact appendRoomData_lookup_self m ad.RoomID ad.Data
        rw [hself]
      · have hdatas : roomDatas (ad :: rest) r = roomDatas rest r := by
          simp [roomDatas, List.filter, hr]
        rw [hdatas, appendRoomData_lookup_ne m ad.RoomID ad.Data r
          (fun hh => hr hh.symm)]

theorem groupByRoom_lookup (rows : List AccountData) (r : String) :
    alLookup (groupByRoom rows) r = mergeGroup none (roomDatas rows r) := by
  unfold groupByRoom
  rw [groupFold_lookup rows [] r]
  rfl

theorem ProcessAccountData_Rooms_eq (store : AccountStore)
    (roomIDToTimeline : List (String × List String)) (userID : String) (b : Bool) :
    (ProcessAccountData store roomIDToTimeline userID b).Rooms =
      if (roomIDToTimeline.map Prod.fst).length > 0 then
        some (groupByRoom (AccountDatas store (roomIDToTimeline.map Prod.fst)))
      else none := by
  unfold ProcessAccountData
  cases b <;> simp [apply_ite AccountDataResponse.Rooms]

theorem ProcessAccountData_Global_eq (store : AccountStore)
    (roomIDToTimeline : List (String × List String)) (userID : String)
    (isInitial : Bool) :
    (ProcessAccountData store roomIDToTimeline userID isInitial).Global =
      if isInitial then some (accountEventsAsJSON store.global) else none := by
  unfold ProcessAccountData
  cases isInitial <;> simp [apply_ite AccountDataResponse.Global, AccountDatas]

/-- C9: `ProcessAccountData` includes global account data exactly when
`isInitial` is true; its room account data is independent of `isInitial`, is
fetched only when `roomIDToTimeline` is non-empty, and then holds, for
exactly the room ids present in the map, the store's rows for those rooms. -/
theorem ProcessAccountData_scope (store : AccountStore)
    (roomIDToTimeline : List (String × List String)) (userID : String)
    (isInitial : Bool) :
    ((ProcessAccountData store roomIDToTimeline userID isInitial).Global =
        if isInitial then some (accountEventsAsJSON store.global) else none) ∧
    (∀ b, (ProcessAccountData store roomIDToTimeline userID isInitial).Rooms =
        (ProcessAccountData store roomIDToTimeline userID b).Rooms) ∧
    (roomIDToTimeline = [] →
        (ProcessAccountData store roomIDToTimeline userID isInitial).Rooms = none) ∧
    (roomIDToTimeline ≠ [] →
        ∃ rm, (ProcessAccountData store roomIDToTimeline userID isInitial).Rooms
            = some rm ∧
          ∀ r, alLookup rm r =
            if r ∈ roomIDToTimeline.map Prod.fst then
              mergeGroup none (roomDatas store.room r)
            else none) := by
  refine ⟨ProcessAccountData_Global_eq store roomIDToTimeline userID isInitial,
    ?_, ?_, ?_⟩
  · intro b
    rw [ProcessAccountData_Rooms_eq, ProcessAccountData_Rooms_eq]
  · intro h
    subst h
    rw [ProcessAccountData_Rooms_eq]
    rfl
  · intro h
    rw [ProcessAccountData_Rooms_eq]
    have hlen : (roomIDToTimeline.map Prod.fst).length > 0 := by
      rw [List.length_map]
      exact List.length_pos.mpr h
    rw [if_pos hlen]
    refine ⟨_, rfl, ?_⟩
    intro r
    rw [groupByRoom_lookup]
    have hkeys : (roomIDToTimeline.map Prod.fst).isEmpty = false := by
      cases hm : roomIDToTimeline.map Prod.fst with
      | nil =>
          rw [hm] at hlen
          simp at hlen
      | cons _ _ => rfl
    have hfetch : AccountDatas store (roomIDToTimeline.map Prod.fst) =
        store.room.filter
          (fun ad => ad.RoomID ∈ roomIDToTimeline.map Prod.fst) := by
      unfold AccountDatas
      rw [hkeys]
      rfl
    rw [hfetch]
    by_cases hr : r ∈ roomIDToTimeline.map Prod.fst
    · rw [if_pos hr]
      congr 1
      unfold roomDatas
      congr 1
      rw [List.filter_filter]
      refine List.filter_congr ?_
      intro ad _
      by_cases h1 : ad.RoomID = r
      · simp [h1, hr]
      · simp [h1]
    · rw [if_neg hr]
      have hnil : roomDatas
          (store.room.filter
            (fun ad => ad.RoomID ∈ roomIDToTimeline.map Prod.fst)) r = [] := by
        unfold roomDatas
        rw [List.filter_filter]
        have : (store.room.filter
            (fun ad => decide (ad.RoomID = r) &&
              decide (ad.RoomID ∈ roomIDToTimeline.map Prod.fst))) = [] := by
          rw [List.filter_eq_nil_iff]
          intro ad _
          by_cases h1 : ad.RoomID = r
          · rw [h1]
            simp [hr]
          · simp [h1]
        rw [this]
        rfl
      rw [hnil]
      rfl
